import Mathlib

/-!
Verification of the 3D-printer queue scheduler (`task2.py`) and the
divide-and-conquer min/max finder (`task1.py`).

Numbers are modelled as follows: job volumes and `max_volume` (Python floats
fed with numeric literals) become `Int`; `print_time` and `priority` (Python
ints) become `Int`; `max_items` (a count compared against a list length)
becomes `Nat`.  Python's in-place stable `list.sort` with key
`(priority, original index)` is modelled by `List.mergeSort` on the strict
composite key: since the key is injective on the enumerated list (the index
components are distinct), any stable sort and any merge sort agree on it.
-/

namespace Task1

/-- `_find_min_max_recursive(arr, left, right)` from `task1.py`.
Out-of-range indexing (which cannot occur for the calls `find_min_max`
makes) is modelled by `List.getD` with default `0`; the final guard
returning `(0, 0)` is unreachable for every call with `left ≤ right`
and only makes the recursion total. -/
def find_min_max_recursive (arr : List Int) (left right : Nat) : Int × Int :=
  if left = right then
    (arr.getD left 0, arr.getD left 0)
  else if right = left + 1 then
    if arr.getD left 0 < arr.getD right 0 then
      (arr.getD left 0, arr.getD right 0)
    else
      (arr.getD right 0, arr.getD left 0)
  else if _h : left < right then
    let mid := (left + right) / 2
    let lres := find_min_max_recursive arr left mid
    let rres := find_min_max_recursive arr (mid + 1) right
    (min lres.1 rres.1, max lres.2 rres.2)
  else
    (0, 0)
termination_by right - left
decreasing_by
  · omega
  · omega

/-- `find_min_max(arr)` from `task1.py`; the `ValueError` raised on an
empty array is modelled as `none`. -/
def find_min_max (arr : List Int) : Option (Int × Int) :=
  if arr = [] then none
  else some (find_min_max_recursive arr 0 (arr.length - 1))

end Task1

namespace Task2

/-- The `PrintJob` dataclass from `task2.py`. -/
structure PrintJob where
  id : String
  volume : Int
  priority : Int
  print_time : Int
deriving Repr, DecidableEq

/-- The `PrinterConstraints` dataclass from `task2.py`. -/
structure PrinterConstraints where
  max_volume : Int
  max_items : Nat
deriving Repr, DecidableEq

/-- One entry of the `batches` list built by `optimize_printing`:
the dict `{'jobs': ..., 'time': ...}`. -/
structure Batch where
  jobs : List PrintJob
  time : Int
deriving Repr, DecidableEq

/-- The dict returned by `optimize_printing`. -/
structure Schedule where
  print_order : List String
  total_time : Int
deriving Repr, DecidableEq

/-- The sort key `lambda x: (x[1].priority, x[0])` of line 69, as a boolean
lexicographic comparison on `(original index, job)` pairs. -/
def jobKeyLe (a b : Nat × PrintJob) : Bool :=
  decide (a.2.priority < b.2.priority ∨ (a.2.priority = b.2.priority ∧ a.1 ≤ b.1))

/-- The loop state of the packing loop (lines 77-98): `batches`,
`current_batch`, `current_volume`, `current_max_time`. -/
structure PackState where
  batches : List Batch
  current_batch : List PrintJob
  current_volume : Int
  current_max_time : Int
deriving Repr, DecidableEq

/-- One iteration of the `for job in jobs` loop (lines 81-98). -/
def packStep (printer : PrinterConstraints) (s : PackState) (job : PrintJob) : PackState :=
  let can_fit_volume := s.current_volume + job.volume ≤ printer.max_volume
  let can_fit_items := s.current_batch.length < printer.max_items
  let s' :=
    if s.current_batch ≠ [] ∧ (¬can_fit_volume ∨ ¬can_fit_items) then
      { batches := s.batches ++ [{ jobs := s.current_batch, time := s.current_max_time }]
        current_batch := []
        current_volume := 0
        current_max_time := 0 }
    else s
  { batches := s'.batches
    current_batch := s'.current_batch ++ [job]
    current_volume := s'.current_volume + job.volume
    current_max_time := max s'.current_max_time job.print_time }

/-- The whole packing phase (lines 76-103): fold the loop body over the
priority-ordered jobs, then close the last batch if non-empty. -/
def runPack (printer : PrinterConstraints) (jobs : List PrintJob) : List Batch :=
  let s := jobs.foldl (packStep printer) ⟨[], [], 0, 0⟩
  if s.current_batch ≠ [] then
    s.batches ++ [{ jobs := s.current_batch, time := s.current_max_time }]
  else
    s.batches

/-- Lines 66-70: enumerate the caller's jobs, sort by
`(priority, original index)`, drop the indices. -/
def orderedJobs (print_jobs : List PrintJob) : List PrintJob :=
  ((print_jobs.enum).mergeSort jobKeyLe).map Prod.snd

/-- `optimize_printing(print_jobs, constraints)` from `task2.py`:
sort, pack, then flatten ids and add up batch times (lines 105-115). -/
def optimize_printing (print_jobs : List PrintJob)
    (constraints : PrinterConstraints) : Schedule :=
  let jobs := orderedJobs print_jobs
  let batches := runPack constraints jobs
  { print_order := (batches.map fun b => b.jobs.map PrintJob.id).flatten
    total_time := (batches.map Batch.time).foldl (· + ·) 0 }

end Task2

namespace Task1

theorem fmr_base (arr : List Int) (left : Nat) :
    find_min_max_recursive arr left left = (arr.getD left 0, arr.getD left 0) := by
  rw [find_min_max_recursive]; simp

theorem fmr_adjacent (arr : List Int) (left : Nat) :
    find_min_max_recursive arr left (left + 1) =
      if arr.getD left 0 < arr.getD (left + 1) 0 then
        (arr.getD left 0, arr.getD (left + 1) 0)
      else
        (arr.getD (left + 1) 0, arr.getD left 0) := by
  rw [find_min_max_recursive]; simp

theorem fmr_split (arr : List Int) (left right : Nat)
    (h1 : left ≠ right) (h2 : right ≠ left + 1) (h3 : left < right) :
    find_min_max_recursive arr left right =
      (min (find_min_max_recursive arr left ((left + right) / 2)).1
        (find_min_max_recursive arr ((left + right) / 2 + 1) right).1,
       max (find_min_max_recursive arr left ((left + right) / 2)).2
        (find_min_max_recursive arr ((left + right) / 2 + 1) right).2) := by
  rw [find_min_max_recursive]
  simp [h1, h2, h3]

end Task1

namespace Task1

theorem find_min_max_recursive_spec (arr : List Int) (left right : Nat)
    (hlr : left ≤ right) (hr : right < arr.length) :
    ((∃ i, left ≤ i ∧ i ≤ right ∧ arr.getD i 0 = (find_min_max_recursive arr left right).1) ∧
      ∀ i, left ≤ i → i ≤ right → (find_min_max_recursive arr left right).1 ≤ arr.getD i 0) ∧
    ((∃ i, left ≤ i ∧ i ≤ right ∧ arr.getD i 0 = (find_min_max_recursive arr left right).2) ∧
      ∀ i, left ≤ i → i ≤ right → arr.getD i 0 ≤ (find_min_max_recursive arr left right).2) := by
  have key : ∀ n left right, right - left = n → left ≤ right → right < arr.length →
      ((∃ i, left ≤ i ∧ i ≤ right ∧ arr.getD i 0 = (find_min_max_recursive arr left right).1) ∧
        ∀ i, left ≤ i → i ≤ right → (find_min_max_recursive arr left right).1 ≤ arr.getD i 0) ∧
      ((∃ i, left ≤ i ∧ i ≤ right ∧ arr.getD i 0 = (find_min_max_recursive arr left right).2) ∧
        ∀ i, left ≤ i → i ≤ right → arr.getD i 0 ≤ (find_min_max_recursive arr left right).2) := by
    intro n
    induction n using Nat.strong_induction_on with
    | _ n ih =>
      intro left right hn hlr hr
      by_cases h1 : left = right
      · subst h1
        rw [fmr_base]
        refine ⟨⟨⟨left, le_refl _, le_refl _, rfl⟩, fun i hi1 hi2 => ?_⟩,
          ⟨left, le_refl _, le_refl _, rfl⟩, fun i hi1 hi2 => ?_⟩
        · have hi : i = left := by omega
          subst hi
          exact le_refl _
        · have hi : i = left := by omega
          subst hi
          exact le_refl _
      · by_cases h2 : right = left + 1
        · subst h2
          rw [fmr_adjacent]
          by_cases hc : arr.getD left 0 < arr.getD (left + 1) 0
          · simp only [if_pos hc]
            refine ⟨⟨⟨left, le_refl _, by omega, rfl⟩, fun i hi1 hi2 => ?_⟩,
              ⟨left + 1, by omega, le_refl _, rfl⟩, fun i hi1 hi2 => ?_⟩
            · have hi : i = left ∨ i = left + 1 := by omega
              rcases hi with hi | hi <;> subst hi <;> omega
            · have hi : i = left ∨ i = left + 1 := by omega
              rcases hi with hi | hi <;> subst hi <;> omega
          · simp only [if_neg hc]
            refine ⟨⟨⟨left + 1, by omega, le_refl _, rfl⟩, fun i hi1 hi2 => ?_⟩,
              ⟨left, le_refl _, by omega, rfl⟩, fun i hi1 hi2 => ?_⟩
            · have hi : i = left ∨ i = left + 1 := by omega
              rcases hi with hi | hi <;> subst hi <;> omega
            · have hi : i = left ∨ i = left + 1 := by omega
              rcases hi with hi | hi <;> subst hi <;> omega
        · have h3 : left < right := by omega
          rw [fmr_split arr left right h1 h2 h3]
          have hm1 : left ≤ (left + right) / 2 := by omega
          have hm2 : (left + right) / 2 < right := by omega
          have hmlt : (left + right) / 2 - left < n := by omega
          have hrlt : right - ((left + right) / 2 + 1) < n := by omega
          obtain ⟨⟨⟨li, hli1, hli2, hlieq⟩, hlb⟩, ⟨lj, hlj1, hlj2, hljeq⟩, hlB⟩ :=
            ih _ hmlt left ((left + right) / 2) rfl hm1 (by omega)
          obtain ⟨⟨⟨ri, hri1, hri2, hrieq⟩, hrb⟩, ⟨rj, hrj1, hrj2, hrjeq⟩, hrB⟩ :=
            ih _ hrlt ((left + right) / 2 + 1) right rfl (by omega) hr
          refine ⟨⟨?_, ?_⟩, ?_, ?_⟩
          · rcases le_total (find_min_max_recursive arr left ((left + right) / 2)).1
              (find_min_max_recursive arr ((left + right) / 2 + 1) right).1 with hmin | hmin
            · exact ⟨li, hli1, by omega, by
                simp only [hlieq]
                exact (min_eq_left hmin).symm⟩
            · exact ⟨ri, by omega, hri2, by
                simp only [hrieq]
                exact (min_eq_right hmin).symm⟩
          · intro i hi1 hi2
            by_cases hi : i ≤ (left + right) / 2
            · exact le_trans (min_le_left _ _) (hlb i hi1 hi)
            · exact le_trans (min_le_right _ _) (hrb i (by omega) hi2)
          · rcases le_total (find_min_max_recursive arr left ((left + right) / 2)).2
              (find_min_max_recursive arr ((left + right) / 2 + 1) right).2 with hmax | hmax
            · exact ⟨rj, by omega, hrj2, by
                simp only [hrjeq]
                exact (max_eq_right hmax).symm⟩
            · exact ⟨lj, hlj1, by omega, by
                simp only [hljeq]
                exact (max_eq_left hmax).symm⟩
          · intro i hi1 hi2
            by_cases hi : i ≤ (left + right) / 2
            · exact le_trans (hlB i hi1 hi) (le_max_left _ _)
            · exact le_trans (hrB i (by omega) hi2) (le_max_right _ _)
  exact key (right - left) left right rfl hlr hr

end Task1

namespace Task1

theorem getD_mem (arr : List Int) (i : Nat) (hi : i < arr.length) : arr.getD i 0 ∈ arr := by
  rw [List.getD_eq_getElem?_getD, List.getElem?_eq_getElem hi]
  exact List.getElem_mem hi

/-- Claim C9: for every non-empty list, `find_min_max` returns the pair
(minimum element, maximum element); it signals the empty-array error
(modelled as `none`) if and only if the list is empty. -/
theorem find_min_max_spec (arr : List Int) :
    (find_min_max arr = none ↔ arr = []) ∧
    ∀ m M, find_min_max arr = some (m, M) →
      m ∈ arr ∧ M ∈ arr ∧ ∀ x ∈ arr, m ≤ x ∧ x ≤ M := by
  constructor
  · constructor
    · intro h
      by_contra hne
      simp [find_min_max, hne] at h
    · intro h
      simp [find_min_max, h]
  · intro m M h
    have hne : arr ≠ [] := by
      intro h0
      simp [find_min_max, h0] at h
    have hlen : 0 < arr.length := List.length_pos.mpr hne
    have heq : find_min_max_recursive arr 0 (arr.length - 1) = (m, M) := by
      simpa [find_min_max, hne] using h
    have hm : m = (find_min_max_recursive arr 0 (arr.length - 1)).1 := by rw [heq]
    have hM : M = (find_min_max_recursive arr 0 (arr.length - 1)).2 := by rw [heq]
    subst hm
    subst hM
    obtain ⟨⟨⟨i, _, hi2, hieq⟩, hlb⟩, ⟨j, _, hj2, hjeq⟩, hub⟩ :=
      find_min_max_recursive_spec arr 0 (arr.length - 1) (by omega) (by omega)
    refine ⟨?_, ?_, ?_⟩
    · rw [← hieq]
      exact getD_mem arr i (by omega)
    · rw [← hjeq]
      exact getD_mem arr j (by omega)
    · intro x hx
      obtain ⟨k, hk, hkx⟩ := List.mem_iff_getElem.mp hx
      have hgd : arr.getD k 0 = x := by
        rw [List.getD_eq_getElem?_getD, List.getElem?_eq_getElem hk]
        simpa using hkx
      constructor
      · rw [← hgd]
        exact hlb k (by omega) (by omega)
      · rw [← hgd]
        exact hub k (by omega) (by omega)

unseal find_min_max_recursive in
/-- Witness for C9 at the concrete input `[3, 1, 2]`. -/
theorem find_min_max_spec_witness :
    find_min_max [3, 1, 2] = some (1, 3) ∧
    ((1 : Int) ∈ [(3 : Int), 1, 2] ∧ (3 : Int) ∈ [(3 : Int), 1, 2] ∧
      ∀ x ∈ [(3 : Int), 1, 2], 1 ≤ x ∧ x ≤ 3) :=
  ⟨by decide, (find_min_max_spec [3, 1, 2]).2 1 3 (by decide)⟩

end Task1

namespace Task2

/-- Sum of the volumes of a list of jobs (the value `current_volume` tracks). -/
def volSum (l : List PrintJob) : Int := (l.map PrintJob.volume).sum

/-- Fold of `max` over the print times starting from `0`, exactly the value
`current_max_time` holds for the batch content (lines 78, 97). -/
def timeFold (l : List PrintJob) : Int := (l.map PrintJob.print_time).foldl max 0

/-- All jobs of a batch list, in batch order then intra-batch order. -/
def batchJobs (bs : List Batch) : List PrintJob := (bs.map Batch.jobs).flatten

theorem volSum_append_single (l : List PrintJob) (j : PrintJob) :
    volSum (l ++ [j]) = volSum l + j.volume := by
  simp [volSum]

theorem timeFold_append_single (l : List PrintJob) (j : PrintJob) :
    timeFold (l ++ [j]) = max (timeFold l) j.print_time := by
  simp [timeFold, List.foldl_append]

theorem batchJobs_append_single (bs : List Batch) (b : Batch) :
    batchJobs (bs ++ [b]) = batchJobs bs ++ b.jobs := by
  simp [batchJobs]

/-- Closed form of one loop iteration, separating the two cases of the
`if current_batch and (...)` test on line 85. -/
theorem packStep_eq (printer : PrinterConstraints) (s : PackState) (job : PrintJob) :
    packStep printer s job =
      if s.current_batch ≠ [] ∧ (¬(s.current_volume + job.volume ≤ printer.max_volume) ∨
          ¬(s.current_batch.length < printer.max_items)) then
        { batches := s.batches ++ [{ jobs := s.current_batch, time := s.current_max_time }]
          current_batch := [job]
          current_volume := 0 + job.volume
          current_max_time := max 0 job.print_time }
      else
        { batches := s.batches
          current_batch := s.current_batch ++ [job]
          current_volume := s.current_volume + job.volume
          current_max_time := max s.current_max_time job.print_time } := by
  unfold packStep
  dsimp only
  split_ifs <;> rfl

/-- The loop invariant of the packing loop: the accumulators describe the
current batch, and every closed batch is non-empty, satisfies both capacity
constraints whenever it has at least two members, and carries the max-fold
of its members' print times. -/
structure PackInv (printer : PrinterConstraints) (s : PackState) : Prop where
  vol_eq : s.current_volume = volSum s.current_batch
  time_eq : s.current_max_time = timeFold s.current_batch
  cur_ok : 2 ≤ s.current_batch.length →
    volSum s.current_batch ≤ printer.max_volume ∧ s.current_batch.length ≤ printer.max_items
  batches_ok : ∀ b ∈ s.batches, b.jobs ≠ [] ∧
    (2 ≤ b.jobs.length →
      volSum b.jobs ≤ printer.max_volume ∧ b.jobs.length ≤ printer.max_items) ∧
    b.time = timeFold b.jobs

theorem packStep_inv (printer : PrinterConstraints) (s : PackState) (job : PrintJob)
    (h : PackInv printer s) : PackInv printer (packStep printer s job) := by
  rw [packStep_eq]
  split_ifs with hc
  · refine ⟨?_, ?_, ?_, ?_⟩
    · simp [volSum]
    · simp [timeFold]
    · intro h2
      simp at h2
    · intro b hb
      simp only [List.mem_append, List.mem_singleton] at hb
      rcases hb with hb | hb
      · exact h.batches_ok b hb
      · subst hb
        exact ⟨hc.1, fun h2 => h.cur_ok h2, h.time_eq⟩
  · push_neg at hc
    refine ⟨?_, ?_, ?_, h.batches_ok⟩
    · rw [volSum_append_single, h.vol_eq]
    · rw [timeFold_append_single, h.time_eq]
    · intro h2
      have hne : s.current_batch ≠ [] := by
        intro h0
        simp [h0] at h2
      obtain ⟨hfv, hfi⟩ := hc hne
      constructor
      · rw [volSum_append_single]
        rw [h.vol_eq] at hfv
        exact hfv
      · simp only [List.length_append, List.length_singleton]
        omega

theorem foldl_packStep_inv (printer : PrinterConstraints) (jobs : List PrintJob)
    (s : PackState) (h : PackInv printer s) :
    PackInv printer (jobs.foldl (packStep printer) s) := by
  induction jobs generalizing s with
  | nil => exact h
  | cons j js ih => exact ih _ (packStep_inv printer s j h)

theorem packStep_concat (printer : PrinterConstraints) (s : PackState) (job : PrintJob) :
    batchJobs (packStep printer s job).batches ++ (packStep printer s job).current_batch =
      batchJobs s.batches ++ s.current_batch ++ [job] := by
  rw [packStep_eq]
  split_ifs with hc
  · simp [batchJobs_append_single]
  · simp

theorem foldl_packStep_concat (printer : PrinterConstraints) (jobs : List PrintJob)
    (s : PackState) :
    batchJobs (jobs.foldl (packStep printer) s).batches ++
        (jobs.foldl (packStep printer) s).current_batch =
      batchJobs s.batches ++ s.current_batch ++ jobs := by
  induction jobs generalizing s with
  | nil => simp
  | cons j js ih =>
    rw [List.foldl_cons, ih (packStep printer s j), packStep_concat]
    simp

/-- Every batch `runPack` produces is non-empty, respects both constraints
once it has two or more members, and carries the max-fold of its print
times. This holds for all inputs, valid or not. -/
theorem runPack_sound (printer : PrinterConstraints) (jobs : List PrintJob) :
    ∀ b ∈ runPack printer jobs, b.jobs ≠ [] ∧
      (2 ≤ b.jobs.length →
        volSum b.jobs ≤ printer.max_volume ∧ b.jobs.length ≤ printer.max_items) ∧
      b.time = timeFold b.jobs := by
  have h0 : PackInv printer ⟨[], [], 0, 0⟩ := by
    refine ⟨by simp [volSum], by simp [timeFold], ?_, ?_⟩
    · intro h2
      simp at h2
    · intro b hb
      simp at hb
  have hinv := foldl_packStep_inv printer jobs _ h0
  intro b hb
  unfold runPack at hb
  dsimp only at hb
  split_ifs at hb with hcur
  · simp only [List.mem_append, List.mem_singleton] at hb
    rcases hb with hb | hb
    · exact hinv.batches_ok b hb
    · subst hb
      exact ⟨hcur, fun h2 => hinv.cur_ok h2, hinv.time_eq⟩
  · exact hinv.batches_ok b hb

/-- The concatenation of the produced batches is exactly the input job
sequence: packing only draws boundaries. -/
theorem runPack_flatten (printer : PrinterConstraints) (jobs : List PrintJob) :
    batchJobs (runPack printer jobs) = jobs := by
  have h := foldl_packStep_concat printer jobs ⟨[], [], 0, 0⟩
  simp only [batchJobs, List.map_nil, List.flatten_nil, List.nil_append] at h
  unfold runPack
  dsimp only
  split_ifs with hcur
  · rw [batchJobs_append_single]
    exact h
  · simp only [ne_eq, not_not] at hcur
    rw [hcur, List.append_nil] at h
    exact h

/-- `orderedJobs` permutes the caller's job list. -/
theorem orderedJobs_perm (print_jobs : List PrintJob) :
    (orderedJobs print_jobs).Perm print_jobs := by
  have h := (List.mergeSort_perm print_jobs.enum jobKeyLe).map Prod.snd
  rwa [List.enum_map_snd] at h

end Task2

namespace Task2

theorem mem_batch_mem_jobs (printer : PrinterConstraints) (jobs : List PrintJob)
    (b : Batch) (hb : b ∈ runPack printer jobs) (j : PrintJob) (hj : j ∈ b.jobs) :
    j ∈ jobs := by
  rw [← runPack_flatten printer jobs]
  exact List.mem_flatten_of_mem (List.mem_map_of_mem Batch.jobs hb) hj

theorem print_order_eq (print_jobs : List PrintJob) (c : PrinterConstraints) :
    (optimize_printing print_jobs c).print_order =
      (batchJobs (runPack c (orderedJobs print_jobs))).map PrintJob.id := by
  simp only [optimize_printing, batchJobs, List.map_flatten, List.map_map]
  rfl

theorem foldl_add_eq_sum (l : List Int) (a : Int) : l.foldl (· + ·) a = a + l.sum := by
  induction l generalizing a with
  | nil => simp
  | cons x xs ih => simp [ih, add_assoc]

theorem total_time_eq (print_jobs : List PrintJob) (c : PrinterConstraints) :
    (optimize_printing print_jobs c).total_time =
      ((runPack c (orderedJobs print_jobs)).map Batch.time).sum := by
  show ((runPack c (orderedJobs print_jobs)).map Batch.time).foldl (· + ·) 0 = _
  rw [foldl_add_eq_sum]
  simp

theorem foldl_max_zero (l : List Int) (hne : l ≠ []) (hpos : ∀ t ∈ l, 0 < t) :
    l.foldl max 0 = l.max?.getD 0 := by
  rw [List.foldl_max]
  obtain ⟨m, hm⟩ : ∃ m, l.max? = some m := by
    cases hl : l.max? with
    | none => exact absurd (List.max?_eq_none_iff.mp hl) hne
    | some m => exact ⟨m, rfl⟩
  rw [hm]
  simp only [Option.getD_some]
  have h0 : 0 < m := hpos m (List.max?_mem max_choice hm)
  exact max_eq_right h0.le

/-- Claim C1: for valid inputs the concatenation of the produced batches is
exactly the priority-ordered job sequence, and the multiset of ids in
`print_order` equals the multiset of input ids. -/
theorem optimize_printing_partition (print_jobs : List PrintJob) (c : PrinterConstraints)
    (_hv : ∀ j ∈ print_jobs, 0 < j.volume) (_hp : ∀ j ∈ print_jobs, 0 < j.priority)
    (_ht : ∀ j ∈ print_jobs, 0 < j.print_time)
    (_hmv : 0 < c.max_volume) (_hmi : 1 ≤ c.max_items) :
    batchJobs (runPack c (orderedJobs print_jobs)) = orderedJobs print_jobs ∧
    (optimize_printing print_jobs c).print_order.Perm (print_jobs.map PrintJob.id) := by
  refine ⟨runPack_flatten c _, ?_⟩
  rw [print_order_eq, runPack_flatten]
  exact (orderedJobs_perm print_jobs).map PrintJob.id

unseal List.merge List.mergeSort in
/-- Witness for C1 at the jobs and constraints of the spec's Scenario A. -/
theorem optimize_printing_partition_witness :
    batchJobs (runPack ⟨300, 2⟩ (orderedJobs
        [⟨"M1", 100, 1, 120⟩, ⟨"M2", 150, 1, 90⟩, ⟨"M3", 120, 1, 150⟩])) =
      orderedJobs [⟨"M1", 100, 1, 120⟩, ⟨"M2", 150, 1, 90⟩, ⟨"M3", 120, 1, 150⟩] ∧
    (optimize_printing [⟨"M1", 100, 1, 120⟩, ⟨"M2", 150, 1, 90⟩, ⟨"M3", 120, 1, 150⟩]
        ⟨300, 2⟩).print_order.Perm
      ([⟨"M1", 100, 1, 120⟩, ⟨"M2", 150, 1, 90⟩, (⟨"M3", 120, 1, 150⟩ : PrintJob)].map
        PrintJob.id) :=
  optimize_printing_partition _ _ (by decide) (by decide) (by decide) (by decide) (by decide)

/-- Claim C2: the scheduler orders jobs by the composite key
(priority ascending, original index ascending): the sorted enumerated list
is a permutation of the enumerated input (no job dropped, duplicated or
mutated) and is pairwise ordered by that key, so jobs of equal priority
keep their original relative order. -/
theorem optimize_printing_sort_stable (print_jobs : List PrintJob) :
    ((print_jobs.enum).mergeSort jobKeyLe).Perm print_jobs.enum ∧
    ((print_jobs.enum).mergeSort jobKeyLe).Pairwise
      (fun a b => a.2.priority < b.2.priority ∨
        (a.2.priority = b.2.priority ∧ a.1 ≤ b.1)) := by
  constructor
  · exact List.mergeSort_perm _ _
  · have htrans : ∀ a b c : Nat × PrintJob,
        jobKeyLe a b → jobKeyLe b c → jobKeyLe a c := by
      intro a b c hab hbc
      simp only [jobKeyLe, decide_eq_true_eq] at hab hbc ⊢
      omega
    have htotal : ∀ a b : Nat × PrintJob, jobKeyLe a b || jobKeyLe b a := by
      intro a b
      simp only [jobKeyLe, Bool.or_eq_true, decide_eq_true_eq]
      omega
    have h := List.sorted_mergeSort htrans htotal print_jobs.enum
    exact h.imp (by
      intro a b hab
      simpa [jobKeyLe] using hab)

/-- Claim C3: for valid inputs, every produced batch with at least two jobs
respects both the volume ceiling and the item-count ceiling. -/
theorem optimize_printing_capacity (print_jobs : List PrintJob) (c : PrinterConstraints)
    (_hv : ∀ j ∈ print_jobs, 0 < j.volume)
    (_hmv : 0 < c.max_volume) (_hmi : 1 ≤ c.max_items) :
    ∀ b ∈ runPack c (orderedJobs print_jobs), 2 ≤ b.jobs.length →
      volSum b.jobs ≤ c.max_volume ∧ b.jobs.length ≤ c.max_items := by
  intro b hb h2
  exact (runPack_sound c _ b hb).2.1 h2

unseal List.merge List.mergeSort in
/-- Witness for C3: the two-job batch Scenario D produces. -/
theorem optimize_printing_capacity_witness :
    volSum [⟨"M1", 50, 1, 60⟩, ⟨"M2", 50, 1, 70⟩] ≤ (300 : Int) ∧
    ([(⟨"M1", 50, 1, 60⟩ : PrintJob), ⟨"M2", 50, 1, 70⟩]).length ≤ 2 :=
  optimize_printing_capacity
    [⟨"M1", 50, 1, 60⟩, ⟨"M2", 50, 1, 70⟩, ⟨"M3", 50, 1, 80⟩] ⟨300, 2⟩
    (by decide) (by decide) (by decide)
    ⟨[⟨"M1", 50, 1, 60⟩, ⟨"M2", 50, 1, 70⟩], 70⟩ (by decide) (by decide)

end Task2

namespace Task2

/-- Claim C4: for valid inputs the returned `total_time` is the sum, over
the computed batches, of the maximum `print_time` among the jobs of each
batch. -/
theorem optimize_printing_total_time (print_jobs : List PrintJob) (c : PrinterConstraints)
    (ht : ∀ j ∈ print_jobs, 0 < j.print_time) :
    (optimize_printing print_jobs c).total_time =
      ((runPack c (orderedJobs print_jobs)).map
        (fun b => ((b.jobs.map PrintJob.print_time).max?.getD 0))).sum := by
  rw [total_time_eq]
  congr 1
  apply List.map_congr_left
  intro b hb
  obtain ⟨hne, -, htime⟩ := runPack_sound c _ b hb
  rw [htime]
  apply foldl_max_zero
  · simpa using hne
  · intro t htm
    obtain ⟨j, hj, rfl⟩ := List.mem_map.mp htm
    exact ht j ((orderedJobs_perm print_jobs).mem_iff.mp
      (mem_batch_mem_jobs c _ b hb j hj))

unseal List.merge List.mergeSort in
/-- Witness for C4 at the spec's Scenario A. -/
theorem optimize_printing_total_time_witness :
    (optimize_printing [⟨"M1", 100, 1, 120⟩, ⟨"M2", 150, 1, 90⟩, ⟨"M3", 120, 1, 150⟩]
        ⟨300, 2⟩).total_time =
      ((runPack ⟨300, 2⟩ (orderedJobs
          [⟨"M1", 100, 1, 120⟩, ⟨"M2", 150, 1, 90⟩, ⟨"M3", 120, 1, 150⟩])).map
        (fun b => ((b.jobs.map PrintJob.print_time).max?.getD 0))).sum :=
  optimize_printing_total_time _ _ (by decide)

/-- Claim C5: for valid inputs, a job whose volume alone exceeds
`max_volume` is never dropped — it appears in the output, and every batch
containing it is exactly the one-element batch of that job. -/
theorem optimize_printing_oversized (print_jobs : List PrintJob) (c : PrinterConstraints)
    (hv : ∀ j ∈ print_jobs, 0 < j.volume)
    (_hmv : 0 < c.max_volume) (_hmi : 1 ≤ c.max_items)
    (j : PrintJob) (hj : j ∈ print_jobs) (hbig : c.max_volume < j.volume) :
    (∃ b ∈ runPack c (orderedJobs print_jobs), j ∈ b.jobs) ∧
    ∀ b ∈ runPack c (orderedJobs print_jobs), j ∈ b.jobs → b.jobs = [j] := by
  constructor
  · have hjm : j ∈ batchJobs (runPack c (orderedJobs print_jobs)) := by
      rw [runPack_flatten]
      exact (orderedJobs_perm print_jobs).mem_iff.mpr hj
    unfold batchJobs at hjm
    obtain ⟨l, hl, hjl⟩ := List.mem_flatten.mp hjm
    obtain ⟨b, hb, rfl⟩ := List.mem_map.mp hl
    exact ⟨b, hb, hjl⟩
  · intro b hb hjb
    obtain ⟨hne, hcap, -⟩ := runPack_sound c _ b hb
    have hlen : b.jobs.length = 1 := by
      by_contra hlen
      have h2 : 2 ≤ b.jobs.length := by
        have := List.length_pos.mpr hne
        omega
      obtain ⟨hvol, -⟩ := hcap h2
      have hle : j.volume ≤ volSum b.jobs := by
        apply List.single_le_sum
        · intro x hx
          obtain ⟨j', hj', rfl⟩ := List.mem_map.mp hx
          exact (hv j' ((orderedJobs_perm print_jobs).mem_iff.mp
            (mem_batch_mem_jobs c _ b hb j' hj'))).le
        · exact List.mem_map_of_mem PrintJob.volume hjb
      omega
    obtain ⟨x, hx⟩ := List.length_eq_one.mp hlen
    rw [hx] at hjb ⊢
    simp only [List.mem_singleton] at hjb
    rw [hjb]

unseal List.merge List.mergeSort in
/-- Witness for C5: a 400-volume job against a 300-volume ceiling. -/
theorem optimize_printing_oversized_witness :
    (∃ b ∈ runPack ⟨300, 2⟩ (orderedJobs [⟨"B", 400, 1, 10⟩, ⟨"C", 50, 1, 20⟩]),
      (⟨"B", 400, 1, 10⟩ : PrintJob) ∈ b.jobs) ∧
    ∀ b ∈ runPack ⟨300, 2⟩ (orderedJobs [⟨"B", 400, 1, 10⟩, ⟨"C", 50, 1, 20⟩]),
      (⟨"B", 400, 1, 10⟩ : PrintJob) ∈ b.jobs → b.jobs = [⟨"B", 400, 1, 10⟩] :=
  optimize_printing_oversized [⟨"B", 400, 1, 10⟩, ⟨"C", 50, 1, 20⟩] ⟨300, 2⟩
    (by decide) (by decide) (by decide) ⟨"B", 400, 1, 10⟩ (by decide) (by decide)

unseal List.merge List.mergeSort in
/-- Counterexample to claim C6: this input has a duplicate id, a
non-positive volume, a non-positive priority and a non-positive
print time, yet `optimize_printing` signals nothing and returns an
ordinary schedule. -/
theorem optimize_printing_no_validation_counterexample :
    optimize_printing [⟨"A", -1, 1, 5⟩, ⟨"A", 2, 0, -3⟩] ⟨100, 2⟩ =
      ⟨["A", "A"], 5⟩ := by decide

/-- Amended C6: `optimize_printing` performs no input validation at all;
even for inputs with non-positive volume, print time or priority, or with
duplicate ids, it returns a schedule whose `print_order` is a permutation
of the input ids. -/
theorem optimize_printing_no_validation (print_jobs : List PrintJob)
    (c : PrinterConstraints) :
    (optimize_printing print_jobs c).print_order.Perm (print_jobs.map PrintJob.id) := by
  rw [print_order_eq, runPack_flatten]
  exact (orderedJobs_perm print_jobs).map PrintJob.id

/-- Claim C7: the empty job list yields the empty schedule. -/
theorem optimize_printing_empty (c : PrinterConstraints)
    (_hmv : 0 < c.max_volume) (_hmi : 1 ≤ c.max_items) :
    optimize_printing [] c = ⟨[], 0⟩ := by
  unfold optimize_printing orderedJobs runPack
  simp

/-- Witness for C7 at the constraints of the spec's scenarios. -/
theorem optimize_printing_empty_witness :
    optimize_printing [] ⟨300, 2⟩ = ⟨[], 0⟩ :=
  optimize_printing_empty ⟨300, 2⟩ (by decide) (by decide)

/-- Claim C8: `optimize_printing` is deterministic — two calls on equal
inputs return equal schedules. -/
theorem optimize_printing_deterministic (pj1 pj2 : List PrintJob)
    (c1 c2 : PrinterConstraints) (h1 : pj1 = pj2) (h2 : c1 = c2) :
    optimize_printing pj1 c1 = optimize_printing pj2 c2 := by
  rw [h1, h2]

/-- Witness for C8 at the spec's Scenario A input. -/
theorem optimize_printing_deterministic_witness :
    optimize_printing [⟨"M1", 100, 1, 120⟩, ⟨"M2", 150, 1, 90⟩] ⟨300, 2⟩ =
      optimize_printing [⟨"M1", 100, 1, 120⟩, ⟨"M2", 150, 1, 90⟩] ⟨300, 2⟩ :=
  optimize_printing_deterministic _ _ _ _ rfl rfl

/-- The caller-visible data of one `optimize_printing` call: the job list
and the constraints record the caller passed in. -/
structure CallerState where
  print_jobs : List PrintJob
  constraints : PrinterConstraints
deriving Repr, DecidableEq

/-- Statement-level embedding of `optimize_printing` that keeps the
caller's argument objects explicit. In the source the only mutating
operations are `jobs_with_index.sort(...)` (line 69) and `list.append` on
`batches`, `current_batch` and `print_order` (lines 86, 93, 100, 106, 108);
each targets a list constructed inside the call (lines 66, 75-76, 105).
`PrintJob(**job)` (line 66) copies field values out of each caller dict and
`PrinterConstraints(**constraints)` (line 67) copies the constraints dict,
so no statement writes to the caller's structures, which are threaded
through unchanged and returned alongside the result. -/
def optimize_printing_tracked (s : CallerState) : Schedule × CallerState :=
  let jobs_with_index := s.print_jobs.enum
  let printer : PrinterConstraints := ⟨s.constraints.max_volume, s.constraints.max_items⟩
  let jobs_with_index := jobs_with_index.mergeSort jobKeyLe
  let jobs := jobs_with_index.map Prod.snd
  let batches := runPack printer jobs
  (⟨(batches.map fun b => b.jobs.map PrintJob.id).flatten,
    (batches.map Batch.time).foldl (· + ·) 0⟩, s)

/-- Claim C10: the call leaves the caller's job list and constraints
unchanged while computing exactly the schedule `optimize_printing`
denotes. -/
theorem optimize_printing_frame (s : CallerState) :
    (optimize_printing_tracked s).2 = s ∧
    (optimize_printing_tracked s).1 = optimize_printing s.print_jobs s.constraints :=
  ⟨rfl, rfl⟩

end Task2
